import Mathlib

/-
Verification of the multi-provider orchestration engine of chatdelta-rs
(src/orchestration.rs) against its natural-language specification.

Shallow embedding conventions:
  * Rust `String`/`&str` prompt and response payloads are `List Char`
    (byte length and char length agree on the ASCII inputs used here);
    provider/model display names are Lean `String`.
  * `f64` is modelled by `FP`: a rational for finite values plus `inf`
    and `nan`.  The source never produces negative floats, so a single
    unsigned infinity suffices; operations mirror IEEE-754 where the
    source can reach them (0.0/0.0 = NaN, x/0.0 = inf for x > 0,
    NaN-propagating + and *, and Rust `f64::min` which *ignores* NaN).
  * `usize`/`u64` are `Nat`; Rust integer division is `Nat` division.
  * Async dispatch is modelled by passing the dispatcher's collected
    outcomes (`List GatherItem`) as an oracle argument: one entry per
    configured provider, in collection order, carrying the provider
    name, its `Result<String, ClientError>` and its measured latency.
  * Rust panics (`Option::unwrap` on `partial_cmp` of NaN) are an
    explicit `Failure.panicked` outcome.
-/

namespace ChatDelta

/-- Prompt/response payload strings, as lists of characters. -/
abbrev Str := List Char

/-! ## A small IEEE-style float model -/

/-- Model of `f64` restricted to the values reachable in
orchestration.rs: finite rationals, (positive) infinity, and NaN. -/
inductive FP where
  | fin (q : ℚ)
  | inf
  | nan
deriving DecidableEq, Repr

/-- Three-way comparison on rationals. -/
def qcmp (a b : ℚ) : Ordering :=
  if a < b then Ordering.lt else if b < a then Ordering.gt else Ordering.eq

/-- `f64::partial_cmp`: `none` iff one side is NaN. -/
def fcmp : FP → FP → Option Ordering
  | .nan, _ => none
  | _, .nan => none
  | .fin a, .fin b => some (qcmp a b)
  | .inf, .inf => some Ordering.eq
  | .inf, .fin _ => some Ordering.gt
  | .fin _, .inf => some Ordering.lt

/-- `f64` addition (NaN propagates). -/
def fadd : FP → FP → FP
  | .nan, _ => .nan
  | _, .nan => .nan
  | .inf, _ => .inf
  | _, .inf => .inf
  | .fin a, .fin b => .fin (a + b)

/-- `f64` multiplication on the nonnegative values the source reaches
(NaN propagates, `inf * 0 = NaN`). -/
def fmul : FP → FP → FP
  | .nan, _ => .nan
  | _, .nan => .nan
  | .inf, .fin b => if b = 0 then .nan else .inf
  | .fin a, .inf => if a = 0 then .nan else .inf
  | .inf, .inf => .inf
  | .fin a, .fin b => .fin (a * b)

/-- `f64` division on the nonnegative values the source reaches:
`0/0 = NaN`, `x/0 = inf` for `x ≠ 0`. -/
def fdiv : FP → FP → FP
  | .nan, _ => .nan
  | _, .nan => .nan
  | .fin a, .fin b => if b = 0 then (if a = 0 then .nan else .inf) else .fin (a / b)
  | .inf, .fin _ => .inf
  | .fin _, .inf => .fin 0
  | .inf, .inf => .nan

/-- Rust `f64::min`: if either argument is NaN, the *other* argument is
returned (NaN is ignored, not propagated). -/
def fmin : FP → FP → FP
  | .nan, y => y
  | x, .nan => x
  | .inf, y => y
  | x, .inf => x
  | .fin a, .fin b => .fin (min a b)

/-- Rust `>` on `f64` (false when either side is NaN). -/
def fgt (a b : FP) : Bool := fcmp a b == some Ordering.gt

/-- Greater-or-equal as produced by a defined `partial_cmp`. -/
def fge (a b : FP) : Prop :=
  fcmp a b = some Ordering.gt ∨ fcmp a b = some Ordering.eq

/-- Sequential `f64` iterator sum, starting from `0.0`. -/
def fsum (l : List FP) : FP := l.foldl fadd (.fin 0)

/-! ## String helpers (ASCII fragment of the Rust std behaviour) -/

/-- `str::to_lowercase`, ASCII fragment. -/
def lowerStr (s : Str) : Str := s.map Char.toLower

/-- Does `needle` occur at the head of the first argument? -/
def startsWith : Str → Str → Bool
  | _, [] => true
  | [], _ :: _ => false
  | c :: cs, d :: ds => c == d && startsWith cs ds

/-- `str::contains` for a literal substring needle. -/
def containsSub : Str → Str → Bool
  | [], needle => needle.isEmpty
  | c :: cs, needle => startsWith (c :: cs) needle || containsSub cs needle

/-- `str::ends_with` for a single character. -/
def endsWith (s : Str) (c : Char) : Bool := s.getLast? == some c

/-- `str::contains` for a single character. -/
def containsChar (s : Str) (c : Char) : Bool := s.contains c

/-- ASCII whitespace test (fragment of Rust `char::is_whitespace`). -/
def isWS (c : Char) : Bool := c == ' ' || c == '\n' || c == '\t' || c == '\r'

/-- Accumulator-passing worker for `splitWS`. -/
def splitWSAux : Str → Str → List Str
  | [], acc => if acc.isEmpty then [] else [acc.reverse]
  | c :: cs, acc =>
    if isWS c then
      (if acc.isEmpty then splitWSAux cs [] else acc.reverse :: splitWSAux cs [])
    else
      splitWSAux cs (c :: acc)

/-- `str::split_whitespace` collected to a list: maximal non-whitespace
runs, never yielding an empty word. -/
def splitWS (s : Str) : List Str := splitWSAux s []

/-! ## Error types (src/error.rs) -/

inductive NetworkErrorType where
  | Timeout | ConnectionFailed | DnsResolution | Other
deriving DecidableEq, Repr

structure NetworkError where
  message : String
  error_type : NetworkErrorType
deriving DecidableEq, Repr

inductive ApiErrorType where
  | RateLimit | QuotaExceeded | InvalidModel | ContentFilter
  | ServerError | BadRequest | Other
deriving DecidableEq, Repr

structure ApiError where
  message : String
  status_code : Option ℕ
  error_type : ApiErrorType
deriving DecidableEq, Repr

inductive AuthErrorType where
  | InvalidApiKey | MissingApiKey | ExpiredToken | InsufficientPermissions | Other
deriving DecidableEq, Repr

structure AuthError where
  message : String
  error_type : AuthErrorType
deriving DecidableEq, Repr

structure ConfigError where
  message : String
  parameter : Option String
deriving DecidableEq, Repr

inductive ParseErrorType where
  | JsonParsing | MissingField | InvalidFormat | Other
deriving DecidableEq, Repr

structure ParseError where
  message : String
  error_type : ParseErrorType
deriving DecidableEq, Repr

inductive StreamErrorType where
  | ConnectionLost | InvalidChunk | StreamClosed | Other
deriving DecidableEq, Repr

structure StreamError where
  message : String
  error_type : StreamErrorType
deriving DecidableEq, Repr

/-- `ClientError` from src/error.rs. -/
inductive ClientError where
  | Network (e : NetworkError)
  | Api (e : ApiError)
  | Authentication (e : AuthError)
  | Configuration (e : ConfigError)
  | Parse (e : ParseError)
  | Stream (e : StreamError)
deriving DecidableEq, Repr

/-- `ClientError::config` constructor helper. -/
def ClientError.config (message : String) (parameter : Option String) : ClientError :=
  .Configuration { message := message, parameter := parameter }

/-- `ClientError::timeout` constructor helper. -/
def ClientError.timeout (message : String) : ClientError :=
  .Network { message := message, error_type := .Timeout }

/-- Outcome of an orchestration execution: a `ClientError` returned as a
`Result::Err`, or a Rust panic (`unwrap` on `None`). -/
inductive Failure where
  | clientErr (e : ClientError)
  | panicked
deriving DecidableEq, Repr

/-! ## Orchestration data model (src/orchestration.rs) -/

inductive OrchestrationStrategy where
  | Parallel | Sequential | Specialized | Consensus
  | WeightedFusion | Tournament | Adaptive
deriving DecidableEq, Repr

inductive TaskType where
  | Code | Creative | Analysis | Mathematics | General
deriving DecidableEq, Repr

structure ModelContribution where
  model : String
  response : Str
  confidence : FP
  weight : FP
  latency_ms : ℕ
deriving DecidableEq, Repr

structure FactCheck where
  statement : String
  models_agreeing : List String
  confidence : FP
deriving DecidableEq, Repr

structure ConsensusAnalysis where
  agreement_score : FP
  key_points : List String
  disagreements : List String
  fact_verification : List FactCheck
deriving DecidableEq, Repr

structure OrchestrationMetrics where
  total_latency_ms : ℕ
  models_used : ℕ
  cache_hit : Bool
  tokens_saved : ℕ
  cost_estimate : FP
deriving DecidableEq, Repr

structure FusedResponse where
  content : Str
  confidence : FP
  contributions : List ModelContribution
  consensus : ConsensusAnalysis
  metrics : OrchestrationMetrics
deriving DecidableEq, Repr

/-- One collected dispatcher outcome: provider name, the provider's
`Result`, and its measured latency in milliseconds
(`gather_responses` / `execute_parallel` produce one per client, in
client order). -/
structure GatherItem where
  model : String
  result : Except ClientError Str
  latency : ℕ

/-- `is_err()` on a gathered provider result. -/
def isErr : Except ClientError Str → Bool
  | .error _ => true
  | .ok _ => false

/-! ## Scoring engine (helper methods of AiOrchestrator) -/

/-- Keyword and marker constants used by the classifier and scorer. -/
def kwCode : Str := "code".toList

def kwFunction : Str := "function".toList

def kwImplement : Str := "implement".toList

def kwCreative : Str := "creative".toList

def kwStory : Str := "story".toList

def kwPoem : Str := "poem".toList

def kwAnalyze : Str := "analyze".toList

def kwExplain : Str := "explain".toList

def kwMath : Str := "math".toList

def kwCalculate : Str := "calculate".toList

def fenceMarker : Str := "```".toList

def mGpt4 : String := "gpt-4"

def mClaude : String := "claude-3-opus"

def mGemini : String := "gemini-1.5-pro"

def noSuccMsg : String := "No successful responses"

def noValidMsg : String := "No valid responses in tournament"

/-- `analyze_prompt`: keyword containment on the lowercased prompt, in
priority order Code, Creative, Analysis, Mathematics, General. -/
def analyze_prompt (prompt : Str) : TaskType :=
  let prompt_lower := lowerStr prompt
  if containsSub prompt_lower kwCode || containsSub prompt_lower kwFunction
      || containsSub prompt_lower kwImplement then
    .Code
  else if containsSub prompt_lower kwCreative || containsSub prompt_lower kwStory
      || containsSub prompt_lower kwPoem then
    .Creative
  else if containsSub prompt_lower kwAnalyze || containsSub prompt_lower kwExplain then
    .Analysis
  else if containsSub prompt_lower kwMath || containsSub prompt_lower kwCalculate then
    .Mathematics
  else
    .General

/-- `calculate_confidence`: 0.5 base, +0.1 for a length inside the open
band `(expected/2, expected*3)` with `expected = prompt.len() * 10` and
integer halving, +0.1 for terminal punctuation, +0.2 for a code prompt
with a fenced block, +0.1 for newline-plus-colon, clamped by
`f64::min(…, 1.0)`. -/
def calculate_confidence (response prompt : Str) : FP :=
  let c0 : FP := .fin (1/2)
  let expected_length := prompt.length * 10
  let actual_length := response.length
  let c1 := if actual_length > expected_length / 2 && actual_length < expected_length * 3
    then fadd c0 (.fin (1/10)) else c0
  let c2 := if endsWith response '.' || endsWith response '!' || endsWith response '?'
    then fadd c1 (.fin (1/10)) else c1
  let c3 := if containsSub prompt kwCode && containsSub response fenceMarker
    then fadd c2 (.fin (1/5)) else c2
  let c4 := if containsChar response '\n' && containsChar response ':'
    then fadd c3 (.fin (1/10)) else c3
  fmin c4 (.fin 1)

/-- The per-model capability multiplier of `calculate_weight`. -/
def capabilityFactor (model : String) : ℚ :=
  if model == mGpt4 then 6/5
  else if model == mClaude then 23/20
  else if model == mGemini then 11/10
  else 1

/-- `calculate_weight`: confidence × latency factor × capability factor,
clamped by `f64::min(…, 1.0)`. -/
def calculate_weight (model : String) (confidence : FP) (latency : ℕ) : FP :=
  let base_weight := confidence
  let latency_factor := fdiv (.fin 1) (fadd (.fin 1) (fdiv (.fin latency) (.fin 1000)))
  let capability_factor : FP := .fin (capabilityFactor model)
  fmin (fmul (fmul base_weight latency_factor) capability_factor) (.fin 1)

/-- `calculate_total_confidence`: weighted average of contribution
confidences, or `0.0` when the weight sum is not `> 0.0`. -/
def calculate_total_confidence (contributions : List ModelContribution) : FP :=
  let weighted_sum := fsum (contributions.map fun c => fmul c.confidence c.weight)
  let weight_sum := fsum (contributions.map fun c => c.weight)
  if fgt weight_sum (.fin 0) then fdiv weighted_sum weight_sum else .fin 0

/-- `score_response`: 0-100 tournament score.  The word-match ratio is a
float division whose denominator is the prompt word count, so a prompt
with no words makes the ratio `0.0/0.0 = NaN`; the final
`f64::min(score, 100.0)` then returns `100.0` because Rust `min`
ignores a NaN argument. -/
def score_response (response prompt : Str) : FP :=
  let s0 : FP := .fin 50
  let s1 := if response.length > 50 then fadd s0 (.fin 10) else s0
  let prompt_words := splitWS prompt
  let response_words := splitWS response
  let matching_words := (prompt_words.filter fun w => response_words.contains w).length
  let s2 := fadd s1 (fmul (fdiv (.fin matching_words) (.fin prompt_words.length)) (.fin 20))
  let s3 := if containsChar response '\n' then fadd s2 (.fin 10) else s2
  let s4 := if endsWith response '.' || endsWith response '!' || endsWith response '?'
    then fadd s3 (.fin 10) else s3
  fmin s4 (.fin 100)

/-- Per-1k-token price table of `estimate_cost`. -/
def costRate (model : String) : ℚ :=
  if model == mGpt4 then 3/100
  else if model == mClaude then 1/40
  else if model == mGemini then 1/50
  else 1/100

/-- `estimate_cost`: token estimate `len/4` (integer division), divided
by 1000 and multiplied by the per-model rate, summed over successes. -/
def estimate_cost (results : List GatherItem) : FP :=
  results.foldl
    (fun total g =>
      match g.result with
      | .ok response =>
        fadd total (fmul (fdiv (.fin (response.length / 4 : ℕ)) (.fin 1000)) (.fin (costRate g.model)))
      | .error _ => total)
    (.fin 0)

/-- `results.iter().map(latency).max().copied().unwrap_or(0)`. -/
def maxLatency (results : List GatherItem) : ℕ :=
  (results.map fun g => g.latency).foldr Nat.max 0

/-! ## Fusion strategies -/

/-- The `Iterator::max_by` reduction of `weighted_merge`: keeps the
accumulator when `compare(acc, x)` is `Greater`, otherwise takes `x`
(so the *last* of equally-weighted maxima wins); an undefined
`partial_cmp` (NaN weight) is the `unwrap` panic. -/
def maxByWeightAux (acc : ModelContribution) :
    List ModelContribution → Except Unit ModelContribution
  | [] => .ok acc
  | x :: xs =>
    match fcmp acc.weight x.weight with
    | none => .error ()
    | some Ordering.gt => maxByWeightAux acc xs
    | some _ => maxByWeightAux x xs

/-- `weighted_merge`: response of the maximum-weight contribution,
empty string (`unwrap_or_default`) when there are no contributions. -/
def weighted_merge (contributions : List ModelContribution) : Except Unit Str :=
  match contributions with
  | [] => .ok []
  | c :: cs => (maxByWeightAux c cs).map fun m => m.response

/-- `analyze_consensus`: mean contribution confidence (a `0.0/0.0 = NaN`
when the contribution list is empty). -/
def analyze_consensus (contributions : List ModelContribution) : ConsensusAnalysis :=
  let avg_confidence :=
    fdiv (fsum (contributions.map fun c => c.confidence)) (.fin (contributions.length : ℚ))
  { agreement_score := avg_confidence
    key_points := ["Models processed query successfully"]
    disagreements := []
    fact_verification := [] }

/-- The contribution `fuse_responses` pushes for a successful result:
hardcoded confidence `0.8` and weight `1.0 / 3.0`. -/
def fuseContrib (g : GatherItem) : Option ModelContribution :=
  match g.result with
  | .ok response =>
    some { model := g.model, response := response, confidence := .fin (4/5)
           weight := .fin (1/3), latency_ms := g.latency }
  | .error _ => none

/-- Contribution list collected by `fuse_responses`, in results order. -/
def fuseContribs (results : List GatherItem) : List ModelContribution :=
  results.filterMap fuseContrib

/-- `fuse_responses` (the Parallel / Sequential / Specialized fusion):
errors when no contribution exists, otherwise takes the first
contribution's response with hardcoded confidence/consensus/metrics. -/
def fuse_responses (results : List GatherItem) : Except Failure FusedResponse :=
  match fuseContribs results with
  | [] => .error (.clientErr (ClientError.config noSuccMsg none))
  | c0 :: rest =>
    .ok { content := c0.response
          confidence := .fin (17/20)
          contributions := c0 :: rest
          consensus := { agreement_score := .fin (4/5), key_points := []
                         disagreements := [], fact_verification := [] }
          metrics := { total_latency_ms := 2000, models_used := 3, cache_hit := false
                       tokens_saved := 0, cost_estimate := .fin (1/20) } }

/-- The contribution `execute_weighted_fusion` builds for a success. -/
def wfContrib (prompt : Str) (g : GatherItem) : Option ModelContribution :=
  match g.result with
  | .ok content =>
    let confidence := calculate_confidence content prompt
    let weight := calculate_weight g.model confidence g.latency
    some { model := g.model, response := content, confidence := confidence
           weight := weight, latency_ms := g.latency }
  | .error _ => none

/-- Contribution list of `execute_weighted_fusion`, in results order. -/
def wfContribs (results : List GatherItem) (prompt : Str) : List ModelContribution :=
  results.filterMap (wfContrib prompt)

/-- `execute_weighted_fusion`: scores every success, merges by maximum
weight, and always returns `Ok` — even with zero successes, where the
content is the empty default string and the contribution list is empty. -/
def execute_weighted_fusion (results : List GatherItem) (prompt : Str) :
    Except Failure FusedResponse :=
  let contributions := wfContribs results prompt
  match weighted_merge contributions with
  | .error _ => .error .panicked
  | .ok fused_content =>
    .ok { content := fused_content
          confidence := calculate_total_confidence contributions
          contributions := contributions
          consensus := analyze_consensus contributions
          metrics := { total_latency_ms := maxLatency results
                       models_used := results.length
                       cache_hit := false
                       tokens_saved := 0
                       cost_estimate := estimate_cost results } }

/-- One scored tournament entry `(model, content, score, latency)`. -/
structure Scored where
  model : String
  content : Str
  score : FP
  latency : ℕ
deriving DecidableEq, Repr

/-- The scored success list `execute_tournament` builds, in results
order. -/
def scoredOf (results : List GatherItem) (prompt : Str) : List Scored :=
  results.filterMap fun g =>
    match g.result with
    | .ok content =>
      some { model := g.model, content := content
             score := score_response content prompt, latency := g.latency }
    | .error _ => none

/-- The `sort_by` comparator `|a, b| b.2.partial_cmp(&a.2)` (descending
by score); `none` is the `unwrap` panic. -/
def tournamentCmp (a b : Scored) : Option Ordering := fcmp b.score a.score

/-- Insert into an already-sorted list: the new element passes an
existing one only when the comparator strictly orders it after
(`Greater`), so equal elements keep their original relative order. -/
def insertSorted (cmp : Scored → Scored → Option Ordering) (x : Scored) :
    List Scored → Option (List Scored)
  | [] => some [x]
  | y :: ys =>
    match cmp x y with
    | none => none
    | some Ordering.gt => (insertSorted cmp x ys).map fun l => y :: l
    | some _ => some (x :: y :: ys)

/-- Stable insertion sort modelling `slice::sort_by` (Rust's sort is
stable, and a stable sort is unique given a total comparator); `none`
models the comparator's `unwrap` panicking on NaN. -/
def sortByCmp (cmp : Scored → Scored → Option Ordering) :
    List Scored → Option (List Scored)
  | [] => some []
  | x :: xs =>
    match sortByCmp cmp xs with
    | none => none
    | some l => insertSorted cmp x l

/-- The key-point label `format!("Winner: {}", winner_model)`. -/
def winnerLabel (m : String) : String := "Winner: " ++ m

/-- The contribution `execute_tournament` builds for a scored entry:
weight 1.0 exactly when the entry's model name equals the winner's. -/
def tournContrib (winner s : Scored) : ModelContribution :=
  { model := s.model, response := s.content
    confidence := fdiv s.score (.fin 100)
    weight := if s.model == winner.model then .fin 1 else .fin 0
    latency_ms := s.latency }

/-- `execute_tournament`: score, sort descending (stable), first sorted
entry wins with weight 1.0 (others 0.0, compared by model name), and a
config error when there is no successful response. -/
def execute_tournament (results : List GatherItem) (prompt : Str) :
    Except Failure FusedResponse :=
  match sortByCmp tournamentCmp (scoredOf results prompt) with
  | none => .error .panicked
  | some [] => .error (.clientErr (ClientError.config noValidMsg none))
  | some (winner :: rest) =>
    .ok { content := winner.content
          confidence := fdiv winner.score (.fin 100)
          contributions := (winner :: rest).map (tournContrib winner)
          consensus := { agreement_score := .fin 0
                         key_points := [winnerLabel winner.model]
                         disagreements := [], fact_verification := [] }
          metrics := { total_latency_ms := maxLatency results
                       models_used := results.length
                       cache_hit := false
                       tokens_saved := 0
                       cost_estimate := estimate_cost results } }

/-! ## Strategy routing and the public query entry point -/

/-- `execute_parallel`: dispatches all clients and fuses naively. -/
def execute_parallel (results : List GatherItem) : Except Failure FusedResponse :=
  fuse_responses results

/-- `execute_sequential`: stub, degrades to the parallel path. -/
def execute_sequential (results : List GatherItem) : Except Failure FusedResponse :=
  execute_parallel results

/-- `execute_specialized`: stub, degrades to the parallel path. -/
def execute_specialized (results : List GatherItem) : Except Failure FusedResponse :=
  execute_parallel results

/-- `execute_consensus`: alias of the weighted-fusion path. -/
def execute_consensus (results : List GatherItem) (prompt : Str) :
    Except Failure FusedResponse :=
  execute_weighted_fusion results prompt

/-- `execute_adaptive`: task-type dispatch to Specialized, Tournament or
WeightedFusion. -/
def execute_adaptive (task_type : TaskType) (results : List GatherItem) (prompt : Str) :
    Except Failure FusedResponse :=
  match task_type with
  | .Code => execute_specialized results
  | .Creative => execute_tournament results prompt
  | _ => execute_weighted_fusion results prompt

/-- `select_strategy`: the fixed task-type mapping.  Note that the
source method reads only the task type — the orchestrator's stored
`strategy` field is never consulted. -/
def select_strategy (task_type : TaskType) : OrchestrationStrategy :=
  match task_type with
  | .Code => .Specialized
  | .Creative => .Tournament
  | .Analysis => .WeightedFusion
  | .Mathematics => .Consensus
  | .General => .Adaptive

/-- The strategy dispatch of `query`'s match expression. -/
def executeStrategy (s : OrchestrationStrategy) (task_type : TaskType)
    (results : List GatherItem) (prompt : Str) : Except Failure FusedResponse :=
  match s with
  | .Parallel => execute_parallel results
  | .Sequential => execute_sequential results
  | .Specialized => execute_specialized results
  | .Consensus => execute_consensus results prompt
  | .WeightedFusion => execute_weighted_fusion results prompt
  | .Tournament => execute_tournament results prompt
  | .Adaptive => execute_adaptive task_type results prompt

/-- The response cache as an association list keyed by the exact prompt
(newest entry first, mirroring `moka` insert-overwrites semantics;
TTL/capacity eviction is time-dependent and outside this model). -/
abbrev Cache := List (Str × FusedResponse)

/-- `ResponseCache::get`. -/
def cacheGet (cache : Cache) (key : Str) : Option FusedResponse :=
  (cache.find? fun e => e.1 == key).map fun e => e.2

/-- `ResponseCache::set`. -/
def cacheSet (cache : Cache) (key : Str) (value : FusedResponse) : Cache :=
  (key, value) :: cache

instance {ε α : Type _} [DecidableEq ε] [DecidableEq α] : DecidableEq (Except ε α) :=
  fun x y =>
    match x, y with
    | .ok a, .ok b => decidable_of_iff (a = b) (by simp)
    | .error a, .error b => decidable_of_iff (a = b) (by simp)
    | .ok _, .error _ => .isFalse (by simp)
    | .error _, .ok _ => .isFalse (by simp)

/-- Result of one `AiOrchestrator::query` call together with the cache
state it leaves behind. -/
structure QueryOutcome where
  result : Except Failure FusedResponse
  cache : Cache
deriving DecidableEq, Repr

set_option linter.unusedVariables false in
/-- `AiOrchestrator::query`: cache lookup first (a hit returns the
cached response unchanged), then classify, select, execute, and cache a
successful response.  The orchestrator's `strategy` field (set by
`with_strategy`) is carried as the first argument and — exactly as in
the source — never read. -/
def query (strategy : OrchestrationStrategy) (cache : Cache)
    (results : List GatherItem) (prompt : Str) : QueryOutcome :=
  match cacheGet cache prompt with
  | some cached => { result := .ok cached, cache := cache }
  | none =>
    let task_type := analyze_prompt prompt
    let selected_strategy := select_strategy task_type
    match executeStrategy selected_strategy task_type results prompt with
    | .error e => { result := .error e, cache := cache }
    | .ok response => { result := .ok response, cache := cacheSet cache prompt response }

/-! ## Projection helpers for stating concrete evaluations -/

/-- Confidence of a successful outcome. -/
def resultConfidence : Except Failure FusedResponse → Option FP
  | .ok r => some r.confidence
  | .error _ => none

/-- Content of a successful outcome. -/
def resultContent : Except Failure FusedResponse → Option Str
  | .ok r => some r.content
  | .error _ => none

/-- Contribution weights of a successful outcome. -/
def resultWeights : Except Failure FusedResponse → Option (List FP)
  | .ok r => some (r.contributions.map fun c => c.weight)
  | .error _ => none

/-- `(total_latency_ms, models_used)` of a successful outcome. -/
def resultLatencyModels : Except Failure FusedResponse → Option (ℕ × ℕ)
  | .ok r => some (r.metrics.total_latency_ms, r.metrics.models_used)
  | .error _ => none

/-- `cache_hit` flag of a successful outcome. -/
def resultCacheHit : Except Failure FusedResponse → Option Bool
  | .ok r => some r.metrics.cache_hit
  | .error _ => none

/-- Consensus key points of a successful outcome. -/
def resultKeyPoints : Except Failure FusedResponse → Option (List String)
  | .ok r => some r.consensus.key_points
  | .error _ => none

/-- Is the outcome a returned `Ok` response (neither error nor panic)? -/
def isOk : Except Failure FusedResponse → Bool
  | .ok _ => true
  | .error _ => false

/-- Modelled from the spec (claim C7's reading): confidence with the
length bonus granted on the *closed* band `[0.5×, 3×]` of
`prompt length × 10`, compared rationally.  This is the spec's wording;
the source uses strict integer comparisons instead.  Used only to
exhibit the divergence. -/
def calculate_confidence_claim (response prompt : Str) : ℚ :=
  let expected : ℚ := (prompt.length : ℚ) * 10
  let len : ℚ := (response.length : ℚ)
  let c0 : ℚ := 1/2
  let c1 := if expected / 2 ≤ len ∧ len ≤ expected * 3 then c0 + 1/10 else c0
  let c2 := if endsWith response '.' || endsWith response '!' || endsWith response '?'
    then c1 + 1/10 else c1
  let c3 := if containsSub prompt kwCode && containsSub response fenceMarker
    then c2 + 1/5 else c2
  let c4 := if containsChar response '\n' && containsChar response ':'
    then c3 + 1/10 else c3
  min c4 1

/-! ## Predicates and constants used by the theorems -/

/-- Descending-score order between adjacent sorted tournament entries. -/
def Rge (a b : Scored) : Prop := fge a.score b.score

/-- The shape every contribution built by `execute_weighted_fusion`
has: a finite confidence in `[1/2, 1]` and a finite positive weight
`≤ 1`. -/
def GoodContrib (c : ModelContribution) : Prop :=
  ∃ qc qw, c.confidence = .fin qc ∧ c.weight = .fin qw ∧
    1/2 ≤ qc ∧ qc ≤ 1 ∧ 0 < qw ∧ qw ≤ 1

/-- The Code-category keyword test of `analyze_prompt`. -/
def matchesCode (s : Str) : Bool :=
  containsSub s kwCode || containsSub s kwFunction || containsSub s kwImplement

/-- The Creative-category keyword test of `analyze_prompt`. -/
def matchesCreative (s : Str) : Bool :=
  containsSub s kwCreative || containsSub s kwStory || containsSub s kwPoem

/-- The Analysis-category keyword test of `analyze_prompt`. -/
def matchesAnalysis (s : Str) : Bool :=
  containsSub s kwAnalyze || containsSub s kwExplain

/-- The Mathematics-category keyword test of `analyze_prompt`. -/
def matchesMath (s : Str) : Bool :=
  containsSub s kwMath || containsSub s kwCalculate

/-- Successful response payloads, in dispatcher collection order. -/
def successResponses (results : List GatherItem) : List Str :=
  results.filterMap fun g =>
    match g.result with
    | .ok c => some c
    | .error _ => none

/-! ## Concrete inputs for witnesses and counterexamples -/

def pCode : Str := "code".toList

def pHi : Str := "hi".toList

def pAnalyze : Str := "analyze this".toList

def pPoem : Str := "Write creative code for a poem".toList

def pPoemUpper : Str := "WRITE CREATIVE CODE FOR A POEM".toList

def pPoemLower : Str := "write creative code for a poem".toList

def pCalc : Str := "calculate the sum".toList

def pBand : Str := "a".toList

def rBand : Str := "abcde".toList

/-- One provider that succeeds with "hello" after 7 ms. -/
def rsOne : List GatherItem := [⟨"m", .ok ("hello".toList), 7⟩]

/-- Two providers that both succeed. -/
def rsTwo : List GatherItem :=
  [⟨"a", .ok ("hello".toList), 1⟩, ⟨"b", .ok ("world".toList), 2⟩]

/-- Two providers that both fail. -/
def rsFail : List GatherItem :=
  [⟨"a", .error (ClientError.timeout "t1"), 3⟩,
   ⟨"b", .error (ClientError.timeout "t2"), 4⟩]

/-- The contribution `fuse_responses` builds for the first entry of
`rsTwo`. -/
def cA : ModelContribution := ⟨"a", "hello".toList, .fin (4/5), .fin (1/3), 1⟩

/-- The contribution `fuse_responses` builds for the second entry of
`rsTwo`. -/
def cB : ModelContribution := ⟨"b", "world".toList, .fin (4/5), .fin (1/3), 2⟩

/-! ## Basic facts about the float model -/

theorem fadd_fin_fin (a b : ℚ) : fadd (.fin a) (.fin b) = .fin (a + b) := rfl

theorem fadd_comm (x y : FP) : fadd x y = fadd y x := by
  cases x <;> cases y <;> simp [fadd, add_comm]

theorem fadd_assoc (x y z : FP) : fadd (fadd x y) z = fadd x (fadd y z) := by
  cases x <;> cases y <;> cases z <;> simp [fadd, add_assoc]

theorem fmin_fin_ex (x : FP) (q : ℚ) : ∃ p, fmin x (.fin q) = .fin p := by
  cases x <;> exact ⟨_, rfl⟩

theorem fcmp_fin_fin (a b : ℚ) : fcmp (.fin a) (.fin b) = some (qcmp a b) := rfl

theorem fge_fin_iff (a b : ℚ) : fge (.fin a) (.fin b) ↔ b ≤ a := by
  unfold fge
  rw [fcmp_fin_fin]
  unfold qcmp
  split_ifs with h1 h2 <;> simp <;> linarith

theorem foldl_fadd_shift (l : List FP) (a x : FP) :
    l.foldl fadd (fadd a x) = fadd x (l.foldl fadd a) := by
  induction l generalizing a with
  | nil => exact fadd_comm a x
  | cons y ys ih =>
    have h : fadd (fadd a x) y = fadd (fadd a y) x := by
      rw [fadd_assoc, fadd_assoc, fadd_comm x y]
    simp only [List.foldl_cons, h, ih]

theorem fsum_cons (x : FP) (l : List FP) : fsum (x :: l) = fadd x (fsum l) := by
  unfold fsum
  simp only [List.foldl_cons]
  exact foldl_fadd_shift l (.fin 0) x

theorem fsum_nil : fsum [] = .fin 0 := rfl

/-! ## Facts about the scoring engine -/

theorem capabilityFactor_pos (model : String) : 0 < capabilityFactor model := by
  unfold capabilityFactor
  split_ifs <;> norm_num

theorem capabilityFactor_le (model : String) : capabilityFactor model ≤ 6/5 := by
  unfold capabilityFactor
  split_ifs <;> norm_num

/-- Case bash over the four confidence bonuses. -/
theorem confidence_bool_cases (b1 b2 b3 b4 : Bool) :
    (let c0 : FP := .fin (1/2)
     let c1 := if b1 then fadd c0 (.fin (1/10)) else c0
     let c2 := if b2 then fadd c1 (.fin (1/10)) else c1
     let c3 := if b3 then fadd c2 (.fin (1/5)) else c2
     let c4 := if b4 then fadd c3 (.fin (1/10)) else c3
     fmin c4 (.fin 1)) =
    .fin (min ((1/2) + (if b1 then (1/10 : ℚ) else 0) + (if b2 then (1/10 : ℚ) else 0)
      + (if b3 then (1/5 : ℚ) else 0) + (if b4 then (1/10 : ℚ) else 0)) 1) := by
  cases b1 <;> cases b2 <;> cases b3 <;> cases b4 <;>
    simp [fadd, fmin, min_def]

/-- Closed form of `calculate_confidence`: base 1/2 plus the four
bonuses (the length bonus uses the strict open integer band), clamped
by `min · 1`. -/
theorem calculate_confidence_eq (response prompt : Str) :
    calculate_confidence response prompt =
      .fin (min ((1/2)
        + (if response.length > (prompt.length * 10) / 2
              && response.length < (prompt.length * 10) * 3 then (1/10 : ℚ) else 0)
        + (if endsWith response '.' || endsWith response '!' || endsWith response '?'
              then (1/10 : ℚ) else 0)
        + (if containsSub prompt kwCode && containsSub response fenceMarker
              then (1/5 : ℚ) else 0)
        + (if containsChar response '\n' && containsChar response ':'
              then (1/10 : ℚ) else 0)) 1) := by
  unfold calculate_confidence
  exact confidence_bool_cases _ _ _ _

/-- `calculate_confidence` always yields a finite value in `[1/2, 1]`. -/
theorem calculate_confidence_bounds (response prompt : Str) :
    ∃ q, calculate_confidence response prompt = .fin q ∧ 1/2 ≤ q ∧ q ≤ 1 := by
  refine ⟨_, calculate_confidence_eq response prompt, ?_, min_le_right _ _⟩
  apply le_min _ (by norm_num)
  split_ifs <;> norm_num

/-- `calculate_weight` on a finite positive confidence `≤ 1` yields a
finite weight in `(0, 1]`. -/
theorem calculate_weight_bounds (model : String) (q : ℚ) (latency : ℕ)
    (h0 : 0 < q) :
    ∃ w, calculate_weight model (.fin q) latency = .fin w ∧ 0 < w ∧ w ≤ 1 := by
  have hden : (1 : ℚ) + (latency : ℚ) / 1000 ≠ 0 := by positivity
  have hlf : (0 : ℚ) < 1 / (1 + (latency : ℚ) / 1000) := by positivity
  have hcf := capabilityFactor_pos model
  refine ⟨min (q * (1 / (1 + (latency : ℚ) / 1000)) * capabilityFactor model) 1, ?_, ?_, ?_⟩
  · unfold calculate_weight
    simp [fdiv, fadd, fmul, fmin, hden]
  · have : 0 < q * (1 / (1 + (latency : ℚ) / 1000)) * capabilityFactor model := by positivity
    exact lt_min this one_pos
  · exact min_le_right _ _

/-- `score_response` always returns a finite score (the final
`f64::min(·, 100.0)` ignores NaN). -/
theorem score_response_fin (response prompt : Str) :
    ∃ q, score_response response prompt = .fin q := by
  unfold score_response
  exact fmin_fin_ex _ _

/-! ## Facts about the tournament sort -/

theorem qcmp_eq_gt_iff (a b : ℚ) : qcmp a b = Ordering.gt ↔ b < a := by
  unfold qcmp
  split_ifs with h1 h2 <;> simp <;> linarith

theorem qcmp_eq_lt_iff (a b : ℚ) : qcmp a b = Ordering.lt ↔ a < b := by
  unfold qcmp
  split_ifs with h1 h2 <;> simp <;> linarith

theorem qcmp_eq_eq_iff (a b : ℚ) : qcmp a b = Ordering.eq ↔ a = b := by
  unfold qcmp
  split_ifs with h1 h2 <;> simp <;> linarith

theorem insertSorted_some (x : Scored) (l : List Scored)
    (hx : ∃ a, x.score = FP.fin a) (hl : ∀ s ∈ l, ∃ a, s.score = FP.fin a) :
    ∃ l', insertSorted tournamentCmp x l = some l' := by
  induction l with
  | nil => exact ⟨[x], rfl⟩
  | cons y ys ih =>
    obtain ⟨a, ha⟩ := hx
    obtain ⟨b, hb⟩ := hl y (List.mem_cons_self y ys)
    have hcmp : tournamentCmp x y = some (qcmp b a) := by
      simp [tournamentCmp, ha, hb, fcmp_fin_fin]
    cases hq : qcmp b a with
    | gt =>
      obtain ⟨l'', h''⟩ := ih fun s hs => hl s (List.mem_cons_of_mem y hs)
      exact ⟨y :: l'', by simp [insertSorted, hcmp, hq, h'']⟩
    | lt => exact ⟨x :: y :: ys, by simp [insertSorted, hcmp, hq]⟩
    | eq => exact ⟨x :: y :: ys, by simp [insertSorted, hcmp, hq]⟩

theorem insertSorted_perm (x : Scored) :
    ∀ (l l' : List Scored), insertSorted tournamentCmp x l = some l' →
      l'.Perm (x :: l) := by
  intro l
  induction l with
  | nil =>
    intro l' h
    simp [insertSorted] at h
    subst h
    exact List.Perm.refl _
  | cons y ys ih =>
    intro l' h
    cases hc : tournamentCmp x y with
    | none => simp [insertSorted, hc] at h
    | some o =>
      cases o with
      | gt =>
        simp [insertSorted, hc] at h
        obtain ⟨l'', h'', hl'⟩ := h
        subst hl'
        exact ((ih l'' h'').cons y).trans (List.Perm.swap x y ys)
      | lt =>
        simp [insertSorted, hc] at h
        subst h
        exact List.Perm.refl _
      | eq =>
        simp [insertSorted, hc] at h
        subst h
        exact List.Perm.refl _

theorem insertSorted_sorted (x : Scored) :
    ∀ (l l' : List Scored), (∃ a, x.score = FP.fin a) →
      (∀ s ∈ l, ∃ a, s.score = FP.fin a) →
      l.Pairwise Rge → insertSorted tournamentCmp x l = some l' →
      l'.Pairwise Rge := by
  intro l
  induction l with
  | nil =>
    intro l' _ _ _ h
    simp [insertSorted] at h
    subst h
    simp
  | cons y ys ih =>
    intro l' hx hl hp h
    obtain ⟨a, ha⟩ := hx
    obtain ⟨b, hb⟩ := hl y (List.mem_cons_self y ys)
    have hcmp : tournamentCmp x y = some (qcmp b a) := by
      simp [tournamentCmp, ha, hb, fcmp_fin_fin]
    rw [List.pairwise_cons] at hp
    cases hq : qcmp b a with
    | gt =>
      have hab : a < b := (qcmp_eq_gt_iff b a).mp hq
      simp [insertSorted, hcmp, hq] at h
      obtain ⟨l'', h'', hl'⟩ := h
      subst hl'
      rw [List.pairwise_cons]
      constructor
      · intro s hs
        rcases List.mem_cons.mp ((insertSorted_perm x ys l'' h'').subset hs) with rfl | hs'
        · unfold Rge
          rw [hb, ha]
          exact (fge_fin_iff b a).mpr (le_of_lt hab)
        · exact hp.1 s hs'
      · exact ih l'' ⟨a, ha⟩ (fun s hs => hl s (List.mem_cons_of_mem y hs)) hp.2 h''
    | lt =>
      have hba : b < a := (qcmp_eq_lt_iff b a).mp hq
      simp [insertSorted, hcmp, hq] at h
      subst h
      rw [List.pairwise_cons]
      refine ⟨?_, List.pairwise_cons.mpr hp⟩
      intro s hs
      rcases List.mem_cons.mp hs with rfl | hs'
      · unfold Rge
        rw [ha, hb]
        exact (fge_fin_iff a b).mpr (le_of_lt hba)
      · obtain ⟨c, hc⟩ := hl s (List.mem_cons_of_mem y hs')
        have hys : Rge y s := hp.1 s hs'
        unfold Rge at hys ⊢
        rw [hb, hc, fge_fin_iff] at hys
        rw [ha, hc, fge_fin_iff]
        linarith
    | eq =>
      have hba : b = a := (qcmp_eq_eq_iff b a).mp hq
      simp [insertSorted, hcmp, hq] at h
      subst h
      rw [List.pairwise_cons]
      refine ⟨?_, List.pairwise_cons.mpr hp⟩
      intro s hs
      rcases List.mem_cons.mp hs with rfl | hs'
      · unfold Rge
        rw [ha, hb]
        exact (fge_fin_iff a b).mpr (le_of_eq hba)
      · obtain ⟨c, hc⟩ := hl s (List.mem_cons_of_mem y hs')
        have hys : Rge y s := hp.1 s hs'
        unfold Rge at hys ⊢
        rw [hb, hc, fge_fin_iff] at hys
        rw [ha, hc, fge_fin_iff]
        linarith

theorem insertSorted_filter (x : Scored) :
    ∀ (l l' : List Scored), (∃ a, x.score = FP.fin a) →
      (∀ s ∈ l, ∃ a, s.score = FP.fin a) →
      insertSorted tournamentCmp x l = some l' →
      ∀ q : FP, l'.filter (fun s => s.score == q) =
        (x :: l).filter (fun s => s.score == q) := by
  intro l
  induction l with
  | nil =>
    intro l' _ _ h q
    simp [insertSorted] at h
    subst h
    rfl
  | cons y ys ih =>
    intro l' hx hl h q
    obtain ⟨a, ha⟩ := hx
    obtain ⟨b, hb⟩ := hl y (List.mem_cons_self y ys)
    have hcmp : tournamentCmp x y = some (qcmp b a) := by
      simp [tournamentCmp, ha, hb, fcmp_fin_fin]
    cases hq : qcmp b a with
    | gt =>
      have hab : a < b := (qcmp_eq_gt_iff b a).mp hq
      simp [insertSorted, hcmp, hq] at h
      obtain ⟨l'', h'', hl'⟩ := h
      subst hl'
      have hih := ih l'' ⟨a, ha⟩ (fun s hs => hl s (List.mem_cons_of_mem y hs)) h'' q
      have hne : ¬((x.score == q) = true ∧ (y.score == q) = true) := by
        rintro ⟨hxq, hyq⟩
        rw [ha, beq_iff_eq] at hxq
        rw [hb, beq_iff_eq] at hyq
        rw [← hxq] at hyq
        have hba : b = a := FP.fin.inj hyq
        linarith
      cases hxq : (x.score == q) <;> cases hyq : (y.score == q)
      · simp [List.filter_cons, hxq, hyq] at hih ⊢
        exact hih
      · simp [List.filter_cons, hxq, hyq] at hih ⊢
        rw [hih]
      · simp [List.filter_cons, hxq, hyq] at hih ⊢
        exact hih
      · exact absurd ⟨hxq, hyq⟩ hne
    | lt =>
      simp [insertSorted, hcmp, hq] at h
      subst h
      rfl
    | eq =>
      simp [insertSorted, hcmp, hq] at h
      subst h
      rfl

theorem sortByCmp_spec (l : List Scored) (hl : ∀ s ∈ l, ∃ a, s.score = FP.fin a) :
    ∃ l', sortByCmp tournamentCmp l = some l' ∧ l'.Perm l ∧ l'.Pairwise Rge ∧
      ∀ q : FP, l'.filter (fun s => s.score == q) =
        l.filter (fun s => s.score == q) := by
  induction l with
  | nil => exact ⟨[], rfl, List.Perm.refl _, List.Pairwise.nil, fun _ => rfl⟩
  | cons x xs ih =>
    obtain ⟨m, hm, hperm, hpair, hfilt⟩ := ih fun s hs => hl s (List.mem_cons_of_mem x hs)
    have hmfin : ∀ s ∈ m, ∃ a, s.score = FP.fin a :=
      fun s hs => hl s (List.mem_cons_of_mem x (hperm.subset hs))
    have hxfin := hl x (List.mem_cons_self x xs)
    obtain ⟨l', hins⟩ := insertSorted_some x m hxfin hmfin
    refine ⟨l', ?_, ?_, ?_, ?_⟩
    · simp [sortByCmp, hm, hins]
    · exact (insertSorted_perm x m l' hins).trans (hperm.cons x)
    · exact insertSorted_sorted x m l' hxfin hmfin hpair hins
    · intro q
      rw [insertSorted_filter x m l' hxfin hmfin hins q]
      simp only [List.filter_cons, hfilt q]

theorem sortByCmp_const (l : List Scored)
    (hall : ∀ s ∈ l, s.score = FP.fin 100) :
    sortByCmp tournamentCmp l = some l := by
  induction l with
  | nil => rfl
  | cons x xs ih =>
    have h' := ih fun s hs => hall s (List.mem_cons_of_mem x hs)
    cases xs with
    | nil => simp [sortByCmp, insertSorted]
    | cons y ys =>
      have hx := hall x (List.mem_cons_self _ _)
      have hy : y.score = FP.fin 100 := hall y (by simp)
      have hcmp : tournamentCmp x y = some Ordering.eq := by
        simp [tournamentCmp, hx, hy, fcmp_fin_fin, qcmp]
      simp [sortByCmp] at h' ⊢
      rw [h']
      simp [insertSorted, hcmp]

theorem scoredOf_fin (results : List GatherItem) (prompt : Str) :
    ∀ s ∈ scoredOf results prompt, ∃ a, s.score = FP.fin a := by
  intro s hs
  unfold scoredOf at hs
  rw [List.mem_filterMap] at hs
  obtain ⟨g, _, hsome⟩ := hs
  cases hres : g.result with
  | ok c =>
    rw [hres] at hsome
    simp at hsome
    rw [← hsome]
    exact score_response_fin c prompt
  | error e =>
    rw [hres] at hsome
    simp at hsome

/-! ## Facts about weighted fusion -/

theorem fgt_fin_iff (a b : ℚ) : fgt (.fin a) (.fin b) = true ↔ b < a := by
  unfold fgt
  rw [fcmp_fin_fin]
  cases hq : qcmp a b with
  | lt => exact iff_of_false (by decide) (by rw [qcmp_eq_lt_iff] at hq; linarith)
  | eq => exact iff_of_false (by decide) (by rw [qcmp_eq_eq_iff] at hq; linarith)
  | gt => exact iff_of_true (by decide) ((qcmp_eq_gt_iff a b).mp hq)

/-- Sums of contribution weights and confidence-weight products for a
list of pipeline-shaped contributions. -/
theorem wf_sums (cs : List ModelContribution) (h : ∀ c ∈ cs, GoodContrib c) :
    ∃ S W, fsum (cs.map fun c => fmul c.confidence c.weight) = .fin S ∧
      fsum (cs.map fun c => c.weight) = .fin W ∧
      0 ≤ W ∧ W/2 ≤ S ∧ S ≤ W ∧ (W = 0 ↔ cs = []) := by
  induction cs with
  | nil => exact ⟨0, 0, rfl, rfl, le_refl 0, by norm_num, le_refl 0, by simp⟩
  | cons c cs ih =>
    obtain ⟨qc, qw, hcc, hcw, h1, h2, h3, h4⟩ := h c (List.mem_cons_self c cs)
    obtain ⟨S, W, hS, hW, hW0, hWS, hSW, hWiff⟩ :=
      ih fun d hd => h d (List.mem_cons_of_mem c hd)
    refine ⟨qc * qw + S, qw + W, ?_, ?_, by linarith, ?_, ?_, ?_⟩
    · rw [List.map_cons, fsum_cons, hS, hcc, hcw]
      simp [fmul, fadd]
    · rw [List.map_cons, fsum_cons, hW, hcw]
      simp [fadd]
    · have hq : qw/2 ≤ qc * qw := by nlinarith
      linarith
    · have hq : qc * qw ≤ qw := by nlinarith
      linarith
    · constructor
      · intro h0
        exfalso
        linarith
      · intro h0
        simp at h0

theorem maxByWeightAux_ok (l : List ModelContribution) :
    ∀ (acc : ModelContribution), (∃ q, acc.weight = .fin q) →
      (∀ c ∈ l, ∃ q, c.weight = .fin q) →
      ∃ m, maxByWeightAux acc l = .ok m := by
  induction l with
  | nil => exact fun acc _ _ => ⟨acc, rfl⟩
  | cons x xs ih =>
    intro acc hacc hl
    obtain ⟨qa, ha⟩ := hacc
    obtain ⟨qx, hx⟩ := hl x (List.mem_cons_self x xs)
    have hcmp : fcmp acc.weight x.weight = some (qcmp qa qx) := by
      rw [ha, hx, fcmp_fin_fin]
    have hxs : ∀ c ∈ xs, ∃ q, c.weight = .fin q :=
      fun c hc => hl c (List.mem_cons_of_mem x hc)
    cases hq : qcmp qa qx with
    | gt =>
      obtain ⟨m, hm⟩ := ih acc ⟨qa, ha⟩ hxs
      exact ⟨m, by simp [maxByWeightAux, hcmp, hq, hm]⟩
    | lt =>
      obtain ⟨m, hm⟩ := ih x ⟨qx, hx⟩ hxs
      exact ⟨m, by simp [maxByWeightAux, hcmp, hq, hm]⟩
    | eq =>
      obtain ⟨m, hm⟩ := ih x ⟨qx, hx⟩ hxs
      exact ⟨m, by simp [maxByWeightAux, hcmp, hq, hm]⟩

theorem weighted_merge_ok (cs : List ModelContribution)
    (h : ∀ c ∈ cs, ∃ q, c.weight = .fin q) :
    ∃ s, weighted_merge cs = .ok s := by
  cases cs with
  | nil => exact ⟨[], rfl⟩
  | cons c cs' =>
    obtain ⟨m, hm⟩ := maxByWeightAux_ok cs' c (h c (List.mem_cons_self c cs'))
      fun d hd => h d (List.mem_cons_of_mem c hd)
    exact ⟨m.response, by simp [weighted_merge, hm, Except.map]⟩

/-- Every contribution built by `execute_weighted_fusion` has a finite
confidence in `[1/2, 1]` and a finite positive weight `≤ 1`. -/
theorem wfContribs_good (results : List GatherItem) (prompt : Str) :
    ∀ c ∈ wfContribs results prompt, GoodContrib c := by
  intro c hc
  unfold wfContribs at hc
  rw [List.mem_filterMap] at hc
  obtain ⟨g, _, hsome⟩ := hc
  unfold wfContrib at hsome
  cases hres : g.result with
  | error e =>
    rw [hres] at hsome
    simp at hsome
  | ok content =>
    rw [hres] at hsome
    simp at hsome
    obtain ⟨qc, hqc, hq1, hq2⟩ := calculate_confidence_bounds content prompt
    obtain ⟨w, hw, hw1, hw2⟩ := calculate_weight_bounds g.model qc g.latency (by linarith)
    refine ⟨qc, w, ?_, ?_, hq1, hq2, hw1, hw2⟩
    · rw [← hsome]
      exact hqc
    · rw [← hsome]
      show calculate_weight g.model (calculate_confidence content prompt) g.latency = .fin w
      rw [hqc]
      exact hw

theorem wfContribs_weights_fin (results : List GatherItem) (prompt : Str) :
    ∀ c ∈ wfContribs results prompt, ∃ q, c.weight = .fin q := by
  intro c hc
  obtain ⟨_, qw, _, hcw, _⟩ := wfContribs_good results prompt c hc
  exact ⟨qw, hcw⟩

/-- `execute_weighted_fusion` never errors: the merge comparator only
sees finite weights, and there is no empty-success guard. -/
theorem execute_weighted_fusion_ok (results : List GatherItem) (prompt : Str) :
    ∃ s, execute_weighted_fusion results prompt = .ok
      { content := s
        confidence := calculate_total_confidence (wfContribs results prompt)
        contributions := wfContribs results prompt
        consensus := analyze_consensus (wfContribs results prompt)
        metrics := { total_latency_ms := maxLatency results
                     models_used := results.length
                     cache_hit := false
                     tokens_saved := 0
                     cost_estimate := estimate_cost results } } ∧
      weighted_merge (wfContribs results prompt) = .ok s := by
  obtain ⟨s, hs⟩ := weighted_merge_ok _ (wfContribs_weights_fin results prompt)
  exact ⟨s, by simp [execute_weighted_fusion, hs], hs⟩

/-- Characterisation of `calculate_total_confidence` on pipeline-shaped
contributions. -/
theorem total_confidence_spec (cs : List ModelContribution)
    (h : ∀ c ∈ cs, GoodContrib c) :
    ∃ q W, calculate_total_confidence cs = .fin q ∧
      fsum (cs.map fun c => c.weight) = .fin W ∧
      0 ≤ q ∧ q ≤ 1 ∧ (q = 0 ↔ W = 0) ∧ (W = 0 ↔ cs = []) := by
  obtain ⟨S, W, hS, hW, hW0, hWS, hSW, hWiff⟩ := wf_sums cs h
  have hbody : calculate_total_confidence cs =
      if fgt (fsum (cs.map fun c => c.weight)) (.fin 0)
      then fdiv (fsum (cs.map fun c => fmul c.confidence c.weight))
        (fsum (cs.map fun c => c.weight))
      else .fin 0 := rfl
  rw [hbody, hS, hW]
  by_cases hWpos : 0 < W
  · have hfgt : fgt (FP.fin W) (FP.fin 0) = true := (fgt_fin_iff W 0).mpr hWpos
    rw [if_pos hfgt]
    have hWne : W ≠ 0 := ne_of_gt hWpos
    have hdiv : fdiv (FP.fin S) (FP.fin W) = .fin (S / W) := by simp [fdiv, hWne]
    rw [hdiv]
    have hSpos : 0 < S := by linarith
    refine ⟨S / W, W, rfl, rfl, le_of_lt (div_pos hSpos hWpos), (div_le_one hWpos).mpr hSW,
      ?_, hWiff⟩
    constructor
    · intro h0
      exact absurd h0 (ne_of_gt (div_pos hSpos hWpos))
    · intro h0
      exact absurd h0 hWne
  · have hWz : W = 0 := le_antisymm (not_lt.mp hWpos) hW0
    have hfgt : fgt (FP.fin W) (FP.fin 0) = false := by
      rw [← Bool.not_eq_true, fgt_fin_iff]
      linarith
    rw [if_neg (by simp [hfgt])]
    exact ⟨0, W, rfl, rfl, le_refl 0, by norm_num, by simp [hWz], hWiff⟩

/-! ## Empty-success facts -/

theorem filterMap_err_nil {α : Type} (f : GatherItem → Option α)
    (hf : ∀ g, isErr g.result = true → f g = none) :
    ∀ (results : List GatherItem), (∀ g ∈ results, isErr g.result = true) →
      results.filterMap f = [] := by
  intro results h
  induction results with
  | nil => rfl
  | cons g gs ih =>
    rw [List.filterMap_cons, hf g (h g (List.mem_cons_self g gs))]
    exact ih fun g' hg' => h g' (List.mem_cons_of_mem g hg')

theorem fuseContribs_all_err (results : List GatherItem)
    (h : ∀ g ∈ results, isErr g.result = true) : fuseContribs results = [] := by
  refine filterMap_err_nil fuseContrib ?_ results h
  intro g hg
  unfold fuseContrib
  cases hres : g.result with
  | ok c =>
    rw [hres] at hg
    simp [isErr] at hg
  | error e => simp

theorem wfContribs_all_err (results : List GatherItem) (prompt : Str)
    (h : ∀ g ∈ results, isErr g.result = true) : wfContribs results prompt = [] := by
  refine filterMap_err_nil (wfContrib prompt) ?_ results h
  intro g hg
  unfold wfContrib
  cases hres : g.result with
  | ok c =>
    rw [hres] at hg
    simp [isErr] at hg
  | error e => simp

theorem scoredOf_all_err (results : List GatherItem) (prompt : Str)
    (h : ∀ g ∈ results, isErr g.result = true) : scoredOf results prompt = [] := by
  unfold scoredOf
  refine filterMap_err_nil _ ?_ results h
  intro g hg
  cases hres : g.result with
  | ok c =>
    rw [hres] at hg
    simp [isErr] at hg
  | error e => simp

/-! ## Cache and parallel-fusion facts -/

theorem cacheGet_cacheSet (cache : Cache) (k : Str) (v : FusedResponse) :
    cacheGet (cacheSet cache k v) k = some v := by
  simp [cacheGet, cacheSet, List.find?]

theorem fuseContribs_responses (results : List GatherItem) :
    (fuseContribs results).map (fun c => c.response) = successResponses results := by
  induction results with
  | nil => rfl
  | cons g gs ih =>
    unfold fuseContribs successResponses at ih ⊢
    rw [List.filterMap_cons, List.filterMap_cons]
    cases hres : g.result with
    | ok c => simp [fuseContrib, hres, ih]
    | error e => simp [fuseContrib, hres, ih]

theorem fuseContribs_fields (results : List GatherItem) :
    ∀ c ∈ fuseContribs results, c.weight = .fin (1/3) ∧ c.confidence = .fin (4/5) := by
  intro c hc
  unfold fuseContribs at hc
  rw [List.mem_filterMap] at hc
  obtain ⟨g, _, hsome⟩ := hc
  unfold fuseContrib at hsome
  cases hres : g.result with
  | ok content =>
    rw [hres] at hsome
    injection hsome with h2
    subst h2
    exact ⟨rfl, rfl⟩
  | error e =>
    rw [hres] at hsome
    simp at hsome

/-! ## Claim theorems -/

/-- C1 (counterexample): with two failing providers and the prompt
"analyze this" (classified Analysis, routed to WeightedFusion), `query`
returns `Ok` instead of the "no successful responses" error, and it
does populate the cache for that prompt. -/
theorem all_fail_returns_ok_and_caches_cex :
    isOk (query .Adaptive [] rsFail pAnalyze).result = true ∧
    (cacheGet (query .Adaptive [] rsFail pAnalyze).cache pAnalyze).isSome = true := by
  exact ⟨rfl, rfl⟩

/-- C1 (amended): when every provider fails, the strategies routed
through `fuse_responses` error with "No successful responses" and
Tournament errors with "No valid responses in tournament", and for
Code/Creative prompts `query` propagates the error without caching; but
WeightedFusion (and hence Consensus and the Adaptive default) returns
`Ok` with empty content, empty contributions and confidence 0, which
`query` then caches for Analysis/Mathematics/General prompts. -/
theorem all_fail_strategy_behavior (results : List GatherItem) (prompt : Str)
    (h : ∀ g ∈ results, isErr g.result = true) :
    fuse_responses results = .error (.clientErr (ClientError.config noSuccMsg none)) ∧
    execute_tournament results prompt =
      .error (.clientErr (ClientError.config noValidMsg none)) ∧
    (∃ r, execute_weighted_fusion results prompt = .ok r ∧
      r.content = [] ∧ r.contributions = [] ∧ r.confidence = .fin 0) ∧
    ∀ s cache, cacheGet cache prompt = none →
      ((analyze_prompt prompt = .Code ∨ analyze_prompt prompt = .Creative) →
        (query s cache results prompt).cache = cache ∧
        isOk (query s cache results prompt).result = false) ∧
      (analyze_prompt prompt ≠ .Code → analyze_prompt prompt ≠ .Creative →
        ∃ r, (query s cache results prompt).result = .ok r ∧
          cacheGet (query s cache results prompt).cache prompt = some r) := by
  have hfuse : fuse_responses results =
      .error (.clientErr (ClientError.config noSuccMsg none)) := by
    unfold fuse_responses
    rw [fuseContribs_all_err results h]
  have htour : execute_tournament results prompt =
      .error (.clientErr (ClientError.config noValidMsg none)) := by
    unfold execute_tournament
    rw [scoredOf_all_err results prompt h]
    rfl
  have hempty := wfContribs_all_err results prompt h
  obtain ⟨s0, hok, hmerge⟩ := execute_weighted_fusion_ok results prompt
  rw [hempty] at hmerge
  have hs0 : s0 = [] := by
    simp [weighted_merge] at hmerge
    exact hmerge
  subst hs0
  have hwf : ∃ r, execute_weighted_fusion results prompt = .ok r ∧
      r.content = [] ∧ r.contributions = [] ∧ r.confidence = .fin 0 := by
    refine ⟨_, hok, rfl, hempty, ?_⟩
    show calculate_total_confidence (wfContribs results prompt) = .fin 0
    rw [hempty]
    rfl
  refine ⟨hfuse, htour, hwf, ?_⟩
  intro s cache hc
  constructor
  · rintro (hcode | hcreate)
    · have hsel : executeStrategy (select_strategy (analyze_prompt prompt))
          (analyze_prompt prompt) results prompt =
          .error (.clientErr (ClientError.config noSuccMsg none)) := by
        rw [hcode]
        simpa [select_strategy, executeStrategy, execute_specialized,
          execute_parallel] using hfuse
      constructor
      · simp [query, hc, hsel]
      · simp [query, hc, hsel, isOk]
    · have hsel : executeStrategy (select_strategy (analyze_prompt prompt))
          (analyze_prompt prompt) results prompt =
          .error (.clientErr (ClientError.config noValidMsg none)) := by
        rw [hcreate]
        simpa [select_strategy, executeStrategy] using htour
      constructor
      · simp [query, hc, hsel]
      · simp [query, hc, hsel, isOk]
  · intro h1 h2
    obtain ⟨r, hokr, hr1, hr2, hr3⟩ := hwf
    have hsel : executeStrategy (select_strategy (analyze_prompt prompt))
        (analyze_prompt prompt) results prompt = .ok r := by
      cases htt : analyze_prompt prompt with
      | Code => exact absurd htt h1
      | Creative => exact absurd htt h2
      | Analysis => simpa [select_strategy, executeStrategy] using hokr
      | Mathematics =>
        simpa [select_strategy, executeStrategy, execute_consensus] using hokr
      | General =>
        simpa [select_strategy, executeStrategy, execute_adaptive] using hokr
    refine ⟨r, ?_, ?_⟩
    · simp [query, hc, hsel]
    · simp [query, hc, hsel, cacheGet_cacheSet]

/-- C1 (witness): the amended theorem applied to two failing providers
and the Analysis-classified prompt "analyze this". -/
theorem all_fail_strategy_behavior_witness :
    fuse_responses rsFail = .error (.clientErr (ClientError.config noSuccMsg none)) ∧
    ∃ r, (query .Adaptive [] rsFail pAnalyze).result = .ok r ∧
      cacheGet (query .Adaptive [] rsFail pAnalyze).cache pAnalyze = some r := by
  have h := all_fail_strategy_behavior rsFail pAnalyze (by decide)
  exact ⟨h.1, (h.2.2.2 .Adaptive [] rfl).2 (by decide) (by decide)⟩

/-- C2 (code bug, evaluated at the failing input): an orchestrator whose
`with_strategy` override is Tournament, queried with the prompt "code"
(classified Code) against one successful provider, executes the
Specialized/parallel fusion path — its result is exactly the
`fuse_responses` outcome (empty key points) and not the Tournament
outcome (which records a "Winner: m" key point): `query` never reads
the stored strategy field. -/
theorem strategy_override_ignored_eval :
    (query .Tournament [] rsOne pCode).result
      = executeStrategy .Specialized .Code rsOne pCode ∧
    resultKeyPoints (executeStrategy .Specialized .Code rsOne pCode) = some [] ∧
    resultKeyPoints (executeStrategy .Tournament .Code rsOne pCode)
      = some [winnerLabel "m"] ∧
    some ([] : List String) ≠ some [winnerLabel "m"] := by
  refine ⟨rfl, rfl, rfl, by decide⟩

/-- C3 (code bug, evaluated at the failing input): querying "hi" twice
against the same provider set returns the cached response verbatim on
the second call — same result value, unchanged cache — but the
`cache_hit` flag is the stored `false`, never rewritten to `true`. -/
theorem cache_hit_flag_not_rewritten_eval :
    (query .Adaptive (query .Adaptive [] rsOne pHi).cache rsOne pHi).result
      = (query .Adaptive [] rsOne pHi).result ∧
    (query .Adaptive (query .Adaptive [] rsOne pHi).cache rsOne pHi).cache
      = (query .Adaptive [] rsOne pHi).cache ∧
    resultCacheHit (query .Adaptive (query .Adaptive [] rsOne pHi).cache rsOne pHi).result
      = some false ∧
    some false ≠ some true := by
  exact ⟨rfl, rfl, rfl, by decide⟩

/-- C4 (counterexample): with a single successful provider (N = 1) the
contribution weight is the hardcoded 1/3, not 1/N = 1. -/
theorem parallel_weight_onethird_cex :
    resultWeights (fuse_responses rsOne) = some [.fin (1/3)] ∧
    FP.fin (1/3) ≠ FP.fin 1 := by
  refine ⟨rfl, fun hc => ?_⟩
  have h := FP.fin.inj hc
  norm_num at h

/-- C4 (amended): `fuse_responses` makes the first successful response
(in dispatcher order) the content and gives every contribution the
hardcoded weight 1/3 (and confidence 0.8) regardless of the number of
successes. -/
theorem parallel_first_success_uniform_third (results : List GatherItem)
    (c0 : ModelContribution) (rest : List ModelContribution)
    (h : fuseContribs results = c0 :: rest) :
    ∃ r, fuse_responses results = .ok r ∧ r.content = c0.response ∧
      r.contributions = c0 :: rest ∧
      r.contributions.map (fun c => c.response) = successResponses results ∧
      ∀ c ∈ r.contributions, c.weight = .fin (1/3) ∧ c.confidence = .fin (4/5) := by
  have hfr : fuse_responses results = .ok
      { content := c0.response
        confidence := .fin (17/20)
        contributions := c0 :: rest
        consensus := { agreement_score := .fin (4/5), key_points := []
                       disagreements := [], fact_verification := [] }
        metrics := { total_latency_ms := 2000, models_used := 3, cache_hit := false
                     tokens_saved := 0, cost_estimate := .fin (1/20) } } := by
    unfold fuse_responses
    rw [h]
  refine ⟨_, hfr, rfl, rfl, ?_, ?_⟩
  · show (c0 :: rest).map (fun c => c.response) = successResponses results
    rw [← h]
    exact fuseContribs_responses results
  · show ∀ c ∈ c0 :: rest, c.weight = .fin (1/3) ∧ c.confidence = .fin (4/5)
    rw [← h]
    exact fuseContribs_fields results

/-- C4 (witness): the amended theorem applied to two successful
providers. -/
theorem parallel_first_success_uniform_third_witness :
    ∃ r, fuse_responses rsTwo = .ok r ∧ r.content = cA.response ∧
      r.contributions = cA :: [cB] ∧
      r.contributions.map (fun c => c.response) = successResponses rsTwo ∧
      ∀ c ∈ r.contributions, c.weight = .fin (1/3) ∧ c.confidence = .fin (4/5) :=
  parallel_first_success_uniform_third rsTwo cA [cB] rfl

/-- C5 (counterexample): with one provider of latency 7 ms,
`fuse_responses` reports `total_latency_ms = 2000` and `models_used = 3`
instead of the max latency 7 and the provider count 1. -/
theorem fuse_metrics_hardcoded_cex :
    resultLatencyModels (fuse_responses rsOne) = some (2000, 3) ∧
    maxLatency rsOne = 7 ∧ rsOne.length = 1 ∧
    ((2000, 3) : ℕ × ℕ) ≠ (7, 1) := by
  exact ⟨rfl, rfl, rfl, by decide⟩

/-- C5 (amended): WeightedFusion (hence Consensus) and Tournament set
`total_latency_ms` to the maximum latency over all dispatched providers
and `models_used` to the number of dispatched providers, while the
`fuse_responses` path (Parallel/Sequential/Specialized) hardcodes
2000 ms and 3 models. -/
theorem metrics_latency_models (results : List GatherItem) (prompt : Str) :
    resultLatencyModels (execute_weighted_fusion results prompt)
      = some (maxLatency results, results.length) ∧
    (isOk (execute_tournament results prompt) = true →
      resultLatencyModels (execute_tournament results prompt)
        = some (maxLatency results, results.length)) ∧
    (isOk (fuse_responses results) = true →
      resultLatencyModels (fuse_responses results) = some (2000, 3)) := by
  refine ⟨?_, ?_, ?_⟩
  · obtain ⟨s0, hok, _⟩ := execute_weighted_fusion_ok results prompt
    rw [hok]
    rfl
  · intro hok
    unfold execute_tournament at hok ⊢
    cases hs : sortByCmp tournamentCmp (scoredOf results prompt) with
    | none =>
      rw [hs] at hok
      simp [isOk] at hok
    | some l =>
      cases l with
      | nil =>
        rw [hs] at hok
        simp [isOk] at hok
      | cons w rest => rfl
  · intro hok
    unfold fuse_responses at hok ⊢
    cases hc : fuseContribs results with
    | nil =>
      rw [hc] at hok
      simp [isOk] at hok
    | cons c0 rest => rfl

/-- C5 (witness): the amended theorem applied to one provider with
latency 7. -/
theorem metrics_latency_models_witness :
    resultLatencyModels (execute_tournament rsOne pHi)
      = some (maxLatency rsOne, rsOne.length) ∧
    resultLatencyModels (fuse_responses rsOne) = some (2000, 3) := by
  have h := metrics_latency_models rsOne pHi
  exact ⟨h.2.1 (by decide), h.2.2 (by decide)⟩

/-- C6: on a non-empty success set with pairwise-distinct provider
names, Tournament sorts the scored successes descending by score with a
stable sort (equal-score entries keep their collection order: the
filtered subsequence at each score value is unchanged), makes the top
entry's response the content with confidence score/100, gives the
winner's contribution weight 1.0 and every other contribution weight
0.0, and errors when there is no success. -/
theorem tournament_stable_descending (results : List GatherItem) (prompt : Str)
    (hnd : ((scoredOf results prompt).map fun s => s.model).Nodup) :
    (scoredOf results prompt = [] →
      execute_tournament results prompt =
        .error (.clientErr (ClientError.config noValidMsg none))) ∧
    (scoredOf results prompt ≠ [] →
      ∃ winner rest,
        sortByCmp tournamentCmp (scoredOf results prompt) = some (winner :: rest) ∧
        (winner :: rest).Perm (scoredOf results prompt) ∧
        (winner :: rest).Pairwise Rge ∧
        (∀ q : FP, (winner :: rest).filter (fun s => s.score == q) =
          (scoredOf results prompt).filter (fun s => s.score == q)) ∧
        ∃ r, execute_tournament results prompt = .ok r ∧
          r.content = winner.content ∧
          r.confidence = fdiv winner.score (.fin 100) ∧
          r.contributions = (winner :: rest).map (tournContrib winner) ∧
          (tournContrib winner winner).weight = .fin 1 ∧
          ∀ s ∈ rest, (tournContrib winner s).weight = .fin 0) := by
  constructor
  · intro hempty
    unfold execute_tournament
    rw [hempty]
    rfl
  · intro hne
    obtain ⟨l', hsort, hperm, hpair, hfilt⟩ :=
      sortByCmp_spec (scoredOf results prompt) (scoredOf_fin results prompt)
    cases l' with
    | nil => exact absurd (hperm.symm.eq_nil) hne
    | cons winner rest =>
      refine ⟨winner, rest, hsort, hperm, hpair, hfilt, ?_⟩
      have hexe : execute_tournament results prompt = .ok
          { content := winner.content
            confidence := fdiv winner.score (.fin 100)
            contributions := (winner :: rest).map (tournContrib winner)
            consensus := { agreement_score := .fin 0
                           key_points := [winnerLabel winner.model]
                           disagreements := [], fact_verification := [] }
            metrics := { total_latency_ms := maxLatency results
                         models_used := results.length
                         cache_hit := false
                         tokens_saved := 0
                         cost_estimate := estimate_cost results } } := by
        unfold execute_tournament
        rw [hsort]
      refine ⟨_, hexe, rfl, rfl, rfl, ?_, ?_⟩
      · simp [tournContrib]
      · intro s hs
        have hnodup : ((winner :: rest).map fun s => s.model).Nodup :=
          ((hperm.map fun s => s.model).nodup_iff).mpr hnd
        rw [List.map_cons, List.nodup_cons] at hnodup
        have hsne : s.model ≠ winner.model := by
          intro heq
          exact hnodup.1 (heq ▸ List.mem_map_of_mem (fun s => s.model) hs)
        simp [tournContrib, hsne]

/-- C6 (witness): the theorem applied to an empty success set and to two
successful providers with distinct names and tied scores (prompt
"code"), where stability keeps the first provider as winner. -/
theorem tournament_stable_descending_witness :
    execute_tournament rsFail pHi =
      .error (.clientErr (ClientError.config noValidMsg none)) ∧
    (∃ winner rest,
      sortByCmp tournamentCmp (scoredOf rsTwo pCode) = some (winner :: rest) ∧
      (winner :: rest).Perm (scoredOf rsTwo pCode) ∧
      (winner :: rest).Pairwise Rge ∧
      (∀ q : FP, (winner :: rest).filter (fun s => s.score == q) =
        (scoredOf rsTwo pCode).filter (fun s => s.score == q)) ∧
      ∃ r, execute_tournament rsTwo pCode = .ok r ∧
        r.content = winner.content ∧
        r.confidence = fdiv winner.score (.fin 100) ∧
        r.contributions = (winner :: rest).map (tournContrib winner) ∧
        (tournContrib winner winner).weight = .fin 1 ∧
        ∀ s ∈ rest, (tournContrib winner s).weight = .fin 0) := by
  refine ⟨(tournament_stable_descending rsFail pHi (by decide)).1 (by decide), ?_⟩
  exact (tournament_stable_descending rsTwo pCode (by decide)).2 (by decide)

/-- C7 (counterexample): prompt "a" (expected length 10) and a 5-char
response: the claimed closed band `[0.5x, 3x]` contains 5, so the claim
predicts confidence 0.6, but the code's strict `>` comparison denies
the bonus and yields 0.5. -/
theorem confidence_closed_band_cex :
    calculate_confidence rBand pBand = .fin (1/2) ∧
    calculate_confidence_claim rBand pBand = 3/5 ∧
    (1/2 : ℚ) ≠ 3/5 := by
  have hb2 : (endsWith rBand '.' || endsWith rBand '!' || endsWith rBand '?') = false := rfl
  have hb3 : (containsSub pBand kwCode && containsSub rBand fenceMarker) = false := rfl
  have hb4 : (containsChar rBand '\n' && containsChar rBand ':') = false := rfl
  have e1 : pBand.length = 1 := rfl
  have e2 : rBand.length = 5 := rfl
  refine ⟨?_, ?_, by norm_num⟩
  · have hb1 : (rBand.length > (pBand.length * 10) / 2
        && rBand.length < (pBand.length * 10) * 3) = false := rfl
    rw [calculate_confidence_eq, hb1, hb2, hb3, hb4]
    norm_num [min_def]
  · unfold calculate_confidence_claim
    rw [hb2, hb3, hb4, e1, e2]
    norm_num [min_def]

/-- C7 (amended): the confidence is 0.5 plus +0.1 for a response length
strictly inside the open integer band `(expected/2, expected*3)` with
`expected = prompt length x 10` (integer division for the lower bound),
+0.1 for terminal punctuation, +0.2 for a "code" prompt with a fenced
block, +0.1 for newline-plus-colon, clamped to at most 1.0; it always
lies in [1/2, 1], hence is never negative. -/
theorem confidence_strict_band_formula (response prompt : Str) :
    calculate_confidence response prompt =
      .fin (min ((1/2)
        + (if response.length > (prompt.length * 10) / 2
              && response.length < (prompt.length * 10) * 3 then (1/10 : ℚ) else 0)
        + (if endsWith response '.' || endsWith response '!' || endsWith response '?'
              then (1/10 : ℚ) else 0)
        + (if containsSub prompt kwCode && containsSub response fenceMarker
              then (1/5 : ℚ) else 0)
        + (if containsChar response '\n' && containsChar response ':'
              then (1/10 : ℚ) else 0)) 1) ∧
    ∃ q, calculate_confidence response prompt = .fin q ∧ 1/2 ≤ q ∧ q ≤ 1 :=
  ⟨calculate_confidence_eq response prompt, calculate_confidence_bounds response prompt⟩

/-- C8: the weighted-fusion confidence is always a finite rational in
[0, 1], equal to the weighted average `calculate_total_confidence` of
its contributions, and it is 0 exactly when the total contribution
weight is 0 (equivalently, when there are no successful responses). -/
theorem weighted_fusion_confidence_in_unit (results : List GatherItem) (prompt : Str) :
    ∃ r, execute_weighted_fusion results prompt = .ok r ∧
      r.confidence = calculate_total_confidence r.contributions ∧
      ∃ q W, r.confidence = .fin q ∧
        fsum (r.contributions.map fun c => c.weight) = .fin W ∧
        0 ≤ q ∧ q ≤ 1 ∧ (q = 0 ↔ W = 0) ∧ (W = 0 ↔ r.contributions = []) := by
  obtain ⟨s0, hok, _⟩ := execute_weighted_fusion_ok results prompt
  obtain ⟨q, W, hq, hW, h0, h1, hiff, hWiff⟩ :=
    total_confidence_spec (wfContribs results prompt) (wfContribs_good results prompt)
  exact ⟨_, hok, rfl, q, W, hq, hW, h0, h1, hiff, hWiff⟩

/-- C9: the prompt classifier depends only on the lowercased prompt
(case-insensitive, pure and deterministic) and applies its keyword
tests in the fixed priority order Code, Creative, Analysis,
Mathematics, General; in particular "Write creative code for a poem"
classifies as Code. -/
theorem classifier_priority_case_insensitive :
    (∀ p q : Str, lowerStr p = lowerStr q → analyze_prompt p = analyze_prompt q) ∧
    (∀ p : Str, matchesCode (lowerStr p) = true → analyze_prompt p = .Code) ∧
    (∀ p : Str, matchesCode (lowerStr p) = false →
      matchesCreative (lowerStr p) = true → analyze_prompt p = .Creative) ∧
    (∀ p : Str, matchesCode (lowerStr p) = false →
      matchesCreative (lowerStr p) = false →
      matchesAnalysis (lowerStr p) = true → analyze_prompt p = .Analysis) ∧
    (∀ p : Str, matchesCode (lowerStr p) = false →
      matchesCreative (lowerStr p) = false →
      matchesAnalysis (lowerStr p) = false →
      matchesMath (lowerStr p) = true → analyze_prompt p = .Mathematics) ∧
    (∀ p : Str, matchesCode (lowerStr p) = false →
      matchesCreative (lowerStr p) = false →
      matchesAnalysis (lowerStr p) = false →
      matchesMath (lowerStr p) = false → analyze_prompt p = .General) ∧
    analyze_prompt pPoem = .Code := by
  have hbody : ∀ p : Str, analyze_prompt p =
      (if matchesCode (lowerStr p) then .Code
       else if matchesCreative (lowerStr p) then .Creative
       else if matchesAnalysis (lowerStr p) then .Analysis
       else if matchesMath (lowerStr p) then .Mathematics
       else .General) := fun p => rfl
  refine ⟨?_, ?_, ?_, ?_, ?_, ?_, by decide⟩
  · intro p q h
    rw [hbody p, hbody q, h]
  · intro p h
    rw [hbody p]
    simp [h]
  · intro p h1 h2
    rw [hbody p]
    simp [h1, h2]
  · intro p h1 h2 h3
    rw [hbody p]
    simp [h1, h2, h3]
  · intro p h1 h2 h3 h4
    rw [hbody p]
    simp [h1, h2, h3, h4]
  · intro p h1 h2 h3 h4
    rw [hbody p]
    simp [h1, h2, h3, h4]

/-- C9 (witness): case-insensitivity on the fully-uppercased example
prompt, and the Mathematics branch on "calculate the sum". -/
theorem classifier_priority_case_insensitive_witness :
    analyze_prompt pPoemUpper = analyze_prompt pPoemLower ∧
    analyze_prompt pCalc = .Mathematics := by
  have h := classifier_priority_case_insensitive
  exact ⟨h.1 pPoemUpper pPoemLower (by decide),
    h.2.2.2.2.1 pCalc (by decide) (by decide) (by decide) (by decide)⟩

/-- C10 (counterexample): with the empty prompt and two successful
responses, the tournament does not panic — it returns the first
response as winner, because the NaN word-match ratio is erased by the
final NaN-ignoring `f64::min(score, 100.0)`. -/
theorem tournament_empty_prompt_no_panic_cex :
    resultContent (execute_tournament rsTwo []) = some ("hello".toList) ∧
    execute_tournament rsTwo [] ≠ .error .panicked := by
  constructor
  · rfl
  · intro hc
    have h1 : resultContent (execute_tournament rsTwo []) = some ("hello".toList) := rfl
    rw [hc] at h1
    simp [resultContent] at h1

/-- C10 (amended): for a prompt with no whitespace-separated words the
word-match ratio is `0.0/0.0 = NaN`, but Rust's NaN-ignoring
`f64::min(score, 100.0)` turns the final score into exactly 100.0, so
every response scores 100.0, the sort comparator only sees equal finite
values and never panics, and the first success in collection order wins
the tournament. -/
theorem empty_prompt_no_panic (response prompt : Str) (results : List GatherItem)
    (h : splitWS prompt = []) :
    score_response response prompt = .fin 100 ∧
    execute_tournament results prompt ≠ .error .panicked ∧
    ∀ s rest, scoredOf results prompt = s :: rest →
      resultContent (execute_tournament results prompt) = some s.content := by
  have hscore : ∀ resp : Str, score_response resp prompt = .fin 100 := by
    intro resp
    unfold score_response
    rw [h]
    split_ifs <;> rfl
  have hall : ∀ s ∈ scoredOf results prompt, s.score = FP.fin 100 := by
    intro s hs
    unfold scoredOf at hs
    rw [List.mem_filterMap] at hs
    obtain ⟨g, _, hsome⟩ := hs
    cases hres : g.result with
    | ok c =>
      rw [hres] at hsome
      injection hsome with h2
      rw [← h2]
      exact hscore c
    | error e =>
      rw [hres] at hsome
      simp at hsome
  have hsort := sortByCmp_const (scoredOf results prompt) hall
  refine ⟨hscore response, ?_, ?_⟩
  · cases hsc : scoredOf results prompt with
    | nil =>
      rw [hsc] at hsort
      unfold execute_tournament
      rw [hsc, hsort]
      simp
    | cons s rest =>
      rw [hsc] at hsort
      unfold execute_tournament
      rw [hsc, hsort]
      simp
  · intro s rest hsc
    rw [hsc] at hsort
    unfold execute_tournament
    rw [hsc, hsort]
    rfl

/-- C10 (witness): the amended theorem applied to the empty prompt and
two successful providers. -/
theorem empty_prompt_no_panic_witness :
    score_response ("hello".toList) ([] : Str) = .fin 100 ∧
    execute_tournament rsTwo ([] : Str) ≠ .error .panicked ∧
    resultContent (execute_tournament rsTwo ([] : Str)) = some ("hello".toList) := by
  have h := empty_prompt_no_panic ("hello".toList) ([] : Str) rsTwo rfl
  exact ⟨h.1, h.2.1,
    h.2.2 ⟨"a", "hello".toList, .fin 100, 1⟩ [⟨"b", "world".toList, .fin 100, 2⟩]
      (by decide)⟩

end ChatDelta
